import Mathlib

/-!
Shallow embedding of the `xq` URL shortener (src/url.py) and verification of
its specification claims.

Python strings are modelled as `List Char` (`Str`). The SQLite table `urls`
is modelled as a `Store`: the list of rows together with the next
AUTOINCREMENT id (ids are never reused, matching `AUTOINCREMENT`). Each SQL
statement of the source becomes one list operation, and each Flask route
becomes a function from request data and store to a `Response` and the
resulting store. Randomness (`random.choices`) is modelled by threading a
choice function `Nat → Nat` giving, for each position, the index of the
chosen alphabet character.
-/

namespace Xq

/-- Python/SQLite text values, character by character. -/
abbrev Str := List Char

/-- The character list of a Lean string literal, for embedding Python string literals. -/
def strOf (s : String) : Str := s.data

/-- SQLite TEXT comparison `a <= b` (memcmp-style lexicographic order on
code points), as used by `expiration <= ?` in `cleanup_expired`. -/
def strLe : Str → Str → Bool
  | [], _ => true
  | _ :: _, [] => false
  | a :: as, b :: bs =>
    if a.toNat < b.toNat then true
    else if b.toNat < a.toNat then false
    else strLe as bs

/-- Python `s.endswith(suffix)`. -/
def strEndsWith (s suffix : Str) : Bool := suffix.isSuffixOf s

/-- `string.ascii_letters + string.digits`: the 62-character alphabet
(26 lowercase, then 26 uppercase, then 10 digits) used by the code generator. -/
def alphabet : Str :=
  strOf "abcdefghijklmnopqrstuvwxyzABCDEFGHIJKLMNOPQRSTUVWXYZ0123456789"

/-- `generate_short_code(length=6)`: `random.choices(alphabet, k=length)`.
`choose i` is the random index drawn for position `i`; `random.choices`
picks each position independently from the whole population, modelled by
reducing the index modulo the alphabet size. The source always calls this
with the default `length = 6`. -/
def generate_short_code (length : Nat) (choose : Nat → Nat) : Str :=
  (List.range length).map (fun i => alphabet.getD (choose i % alphabet.length) 'a')

/-- One row of the `urls` table. -/
structure Rec where
  id : Nat
  long_url : Str
  short_code : Str
  clicks : Nat
  expiration : Option Str
deriving DecidableEq, Repr

/-- The `urls` table: its rows and the next AUTOINCREMENT id. -/
structure Store where
  rows : List Rec
  nextId : Nat
deriving DecidableEq, Repr

/-- `expiration IS NOT NULL AND expiration <= now`: the WHERE clause of the
sweep's DELETE statement, for a single row. -/
def expired (now : Str) (r : Rec) : Bool :=
  match r.expiration with
  | some e => strLe e now
  | none => false

/-- `DELETE FROM urls WHERE expiration IS NOT NULL AND expiration <= ?`
(the body of `cleanup_expired`), row by row. -/
def cleanup_expired (now : Str) : List Rec → List Rec
  | [] => []
  | r :: rs =>
    if expired now r then cleanup_expired now rs
    else r :: cleanup_expired now rs

/-- `cleanup_expired()` acting on the whole store (`now` is passed explicitly;
the source reads `datetime.utcnow().isoformat()`). DELETE does not reset the
AUTOINCREMENT counter. -/
def sweep (now : Str) (s : Store) : Store :=
  ⟨cleanup_expired now s.rows, s.nextId⟩

/-- `SELECT ... FROM urls WHERE short_code = ?` followed by `fetchone()`:
the first row whose `short_code` matches. -/
def get_by_code (code : Str) (rows : List Rec) : Option Rec :=
  rows.find? (fun r => r.short_code == code)

/-- `sqlite3.IntegrityError` raised by the UNIQUE constraint on `short_code`. -/
inductive CreateError where
  | DuplicateCodeError
deriving DecidableEq, Repr

/-- `INSERT INTO urls (long_url, short_code, expiration) VALUES (?, ?, ?)`:
fails with the UNIQUE-constraint violation when `short_code` is already
present; otherwise appends a fresh row with `clicks = 0` (column default)
and the next AUTOINCREMENT id. -/
def create (long_url short_code : Str) (expiration : Option Str) (s : Store) :
    Except CreateError Store :=
  if s.rows.any (fun r => r.short_code == short_code) then
    Except.error CreateError.DuplicateCodeError
  else
    Except.ok ⟨s.rows ++ [⟨s.nextId, long_url, short_code, 0, expiration⟩], s.nextId + 1⟩

/-- `UPDATE urls SET clicks = clicks + 1 WHERE short_code = ?`. -/
def increment_clicks (code : Str) (rows : List Rec) : List Rec :=
  rows.map (fun r => if r.short_code == code then { r with clicks := r.clicks + 1 } else r)

/-- `DELETE FROM urls WHERE short_code = ?`, row by row. -/
def delete_code (code : Str) : List Rec → List Rec
  | [] => []
  | r :: rs =>
    if r.short_code == code then delete_code code rs
    else r :: delete_code code rs

/-- `ORDER BY id DESC`: most recently created first. -/
def recentOrder (a b : Rec) : Prop := b.id ≤ a.id

instance : DecidableRel recentOrder := fun a b => Nat.decLe b.id a.id

instance : IsTotal Rec recentOrder :=
  ⟨fun a b => Nat.le_total b.id a.id⟩

instance : IsTrans Rec recentOrder :=
  ⟨fun _ _ _ hab hbc => Nat.le_trans hbc hab⟩

/-- `SELECT short_code, long_url, clicks, expiration FROM urls ORDER BY id DESC LIMIT 10`:
the history query of the landing page. -/
def list_recent (rows : List Rec) : List Rec :=
  (List.insertionSort recentOrder rows).take 10

/-- The HTTP responses produced by the three routes: `redirect(...)`, the
rendered landing page (with its optional inline error and the history rows),
the preview page, the plain 404, and the framework's 400 for a missing
required form field. -/
inductive Response where
  | redirect (location : Str)
  | page (error : Option Str) (history : List Rec)
  | preview (long_url : Str) (clicks : Nat) (short_code : Str)
  | notFound
  | badRequest
deriving DecidableEq, Repr

/-- `custom_code if custom_code else generate_short_code()`: Python truthiness
treats an absent field and an empty string alike, so the effective short code
is the custom code exactly when it is present and non-empty. -/
def effCode (custom_code : Option Str) (choose : Nat → Nat) : Str :=
  match custom_code with
  | some c => if c = [] then generate_short_code 6 choose else c
  | none => generate_short_code 6 choose

/-- `expiration_date if expiration_date else None`: an absent or empty
expiration field is stored as NULL. -/
def truthyOpt (o : Option Str) : Option Str :=
  match o with
  | some e => if e = [] then none else some e
  | none => none

/-- The POST branch of the `index` route. It first runs `cleanup_expired()`;
then `request.form["long_url"]` raises the framework's 400 when the field is
absent (modelled by `long_url = none`); otherwise it inserts the effective
short code and either redirects to `/?created=<code>` or re-renders the page
with the duplicate-code error and the history of the (already swept) store.
The `created` query parameter only affects rendering and is not modelled. -/
def index_post (now : Str) (long_url custom_code expiration_date : Option Str)
    (choose : Nat → Nat) (s : Store) : Response × Store :=
  let s1 := sweep now s
  match long_url with
  | none => (Response.badRequest, s1)
  | some lu =>
    let short_code := effCode custom_code choose
    let expiration := truthyOpt expiration_date
    match create lu short_code expiration s1 with
    | Except.ok s2 => (Response.redirect (strOf "/?created=" ++ short_code), s2)
    | Except.error _ =>
      (Response.page (some (strOf "Custom code already exists.")) (list_recent s1.rows), s1)

/-- The GET branch of the `index` route: sweep, then render the landing page
with the ten most recent rows. -/
def index_get (now : Str) (s : Store) : Response × Store :=
  let s1 := sweep now s
  (Response.page none (list_recent s1.rows), s1)

/-- The `/delete` route: delete the matching row (if any) and always redirect
to `/`. No sweep runs on this route. -/
def delete_url (short_code : Str) (s : Store) : Response × Store :=
  (Response.redirect (strOf "/"), ⟨delete_code short_code s.rows, s.nextId⟩)

/-- The `/<path:short_code>` route (`redirect_url`): a trailing `+` marks a
preview and is stripped (`short_code[:-1]`) before the lookup; then sweep,
look up, and either 404, render the preview (no mutation), or increment the
click count and redirect to the stored `long_url`. -/
def redirect_url (path now : Str) (s : Store) : Response × Store :=
  let preview := strEndsWith path (strOf "+")
  let short_code := if preview then path.dropLast else path
  let s1 := sweep now s
  match get_by_code short_code s1.rows with
  | none => (Response.notFound, s1)
  | some r =>
    if preview then
      (Response.preview r.long_url r.clicks short_code, s1)
    else
      (Response.redirect r.long_url, ⟨increment_clicks short_code s1.rows, s1.nextId⟩)

/-! ### Helper lemmas about the store operations -/

theorem cleanup_expired_eq_filter (now : Str) (rows : List Rec) :
    cleanup_expired now rows = rows.filter (fun r => !expired now r) := by
  induction rows with
  | nil => rfl
  | cons a rs ih =>
    by_cases ha : expired now a = true
    · simp [cleanup_expired, ha, ih]
    · rw [Bool.not_eq_true] at ha
      simp [cleanup_expired, ha, ih]

theorem mem_cleanup_expired {now : Str} {rows : List Rec} {r : Rec} :
    r ∈ cleanup_expired now rows ↔ r ∈ rows ∧ expired now r = false := by
  rw [cleanup_expired_eq_filter, List.mem_filter]
  simp

theorem cleanup_expired_idem (now : Str) (rows : List Rec) :
    cleanup_expired now (cleanup_expired now rows) = cleanup_expired now rows := by
  simp only [cleanup_expired_eq_filter, List.filter_filter]
  congr 1
  funext r
  cases h : expired now r <;> simp [h]

theorem expired_iff {now : Str} {r : Rec} :
    expired now r = true ↔ ∃ e, r.expiration = some e ∧ strLe e now = true := by
  unfold expired
  cases h : r.expiration with
  | none => simp
  | some e => simp

theorem get_by_code_increment (c : Str) (rows : List Rec) :
    get_by_code c (increment_clicks c rows)
      = (get_by_code c rows).map (fun r => { r with clicks := r.clicks + 1 }) := by
  induction rows with
  | nil => rfl
  | cons a rs ih =>
    by_cases ha : (a.short_code == c) = true
    · simp [get_by_code, increment_clicks, List.find?, ha]
    · rw [Bool.not_eq_true] at ha
      simpa [get_by_code, increment_clicks, List.find?, ha] using ih

theorem mem_increment_of_ne {c : Str} {rows : List Rec} {q : Rec}
    (hq : q ∈ rows) (hne : q.short_code ≠ c) : q ∈ increment_clicks c rows := by
  have : (fun r => if r.short_code == c then { r with clicks := r.clicks + 1 } else r) q = q := by
    simp [hne]
  exact this ▸ List.mem_map_of_mem _ hq

theorem delete_code_eq_filter (c : Str) (rows : List Rec) :
    delete_code c rows = rows.filter (fun r => !(r.short_code == c)) := by
  induction rows with
  | nil => rfl
  | cons a rs ih =>
    by_cases ha : (a.short_code == c) = true
    · simp [delete_code, ha, ih]
    · rw [Bool.not_eq_true] at ha
      simp [delete_code, ha, ih]

theorem mem_delete_code {c : Str} {rows : List Rec} {q : Rec} :
    q ∈ delete_code c rows ↔ q ∈ rows ∧ q.short_code ≠ c := by
  rw [delete_code_eq_filter, List.mem_filter]
  simp

theorem delete_code_of_absent {c : Str} {rows : List Rec}
    (h : ∀ r ∈ rows, r.short_code ≠ c) : delete_code c rows = rows := by
  induction rows with
  | nil => rfl
  | cons a rs ih =>
    have ha : ¬(a.short_code == c) = true := by
      intro hb; exact h a (List.mem_cons_self a rs) (beq_iff_eq.mp hb)
    simp only [delete_code, if_neg ha]
    rw [ih (fun r hr => h r (List.mem_cons_of_mem a hr))]

theorem delete_code_idem (c : Str) (rows : List Rec) :
    delete_code c (delete_code c rows) = delete_code c rows :=
  delete_code_of_absent (fun _ hr => (mem_delete_code.mp hr).2)

theorem get_by_code_append_of_absent {c : Str} {rows : List Rec} (a : Rec)
    (h : rows.any (fun r => r.short_code == c) = false) :
    get_by_code c (rows ++ [a]) = get_by_code c [a] := by
  induction rows with
  | nil => rfl
  | cons b rs ih =>
    simp only [List.any_cons, Bool.or_eq_false_iff] at h
    simp only [get_by_code, List.cons_append, List.find?, h.1]
    exact ih h.2

theorem get_by_code_eq_some {c : Str} {rows : List Rec} {r : Rec}
    (h : get_by_code c rows = some r) : r ∈ rows ∧ r.short_code = c := by
  unfold get_by_code at h
  exact ⟨List.mem_of_find?_eq_some h, by simpa using List.find?_some h⟩

theorem index_post_store_cases (now : Str) (lu : Option Str)
    (custom exp : Option Str) (choose : Nat → Nat) (s : Store) :
    (index_post now lu custom exp choose s).2 = sweep now s
    ∨ ∃ l, lu = some l ∧ (index_post now lu custom exp choose s).2
        = ⟨(sweep now s).rows
            ++ [⟨s.nextId, l, effCode custom choose, 0, truthyOpt exp⟩],
           s.nextId + 1⟩ := by
  cases lu with
  | none => exact Or.inl rfl
  | some l =>
    by_cases hd : ((sweep now s).rows.any fun r => r.short_code == effCode custom choose) = true
    · left
      simp [index_post, create, hd]
    · right
      refine ⟨l, rfl, ?_⟩
      have hd' : ¬∃ x ∈ cleanup_expired now s.rows, x.short_code = effCode custom choose := by
        simpa [sweep] using hd
      simp [index_post, create, hd', sweep]

/-! ### Claims -/

/-- C4: `sweep(now)` (i.e. `cleanup_expired`) deletes exactly the records whose
`expiration` is non-null and `<= now` in the string (lexicographic) order; a
record with a null `expiration` is never deleted, regardless of `now`; every
surviving record is kept completely unchanged (membership is preserved
record-for-record). -/
theorem C4_sweep_deletes_exactly_expired (now : Str) (rows : List Rec) (r : Rec) :
    (r ∈ cleanup_expired now rows
      ↔ r ∈ rows ∧ ¬∃ e, r.expiration = some e ∧ strLe e now = true)
    ∧ (r ∈ rows → r.expiration = none → r ∈ cleanup_expired now rows) := by
  have hb : expired now r = false ↔ ¬∃ e, r.expiration = some e ∧ strLe e now = true := by
    rw [← expired_iff]
    cases h : expired now r <;> simp
  constructor
  · rw [mem_cleanup_expired, hb]
  · intro hr hnone
    exact mem_cleanup_expired.mpr ⟨hr, by simp [expired, hnone]⟩

theorem C4_sweep_deletes_exactly_expired_witness :
    (⟨1, strOf "http://e.com", strOf "x", 0, none⟩ : Rec) ∈
      cleanup_expired (strOf "2099-12-31")
        [⟨1, strOf "http://e.com", strOf "x", 0, none⟩,
         ⟨2, strOf "http://f.com", strOf "y", 3, some (strOf "2020-01-01")⟩] :=
  (C4_sweep_deletes_exactly_expired (strOf "2099-12-31")
      [⟨1, strOf "http://e.com", strOf "x", 0, none⟩,
       ⟨2, strOf "http://f.com", strOf "y", 3, some (strOf "2020-01-01")⟩]
      ⟨1, strOf "http://e.com", strOf "x", 0, none⟩).2 (by decide) rfl

/-- C8: the `/delete` route removes exactly the rows matching the submitted
`short_code`, is a no-op when no row matches (idempotent: deleting an absent
or already-deleted code is not an error), affects no other record, and always
responds with a redirect to `/`. -/
theorem C8_delete_idempotent_redirects (code : Str) (s : Store) :
    (delete_url code s).1 = Response.redirect (strOf "/")
    ∧ ((∀ r ∈ s.rows, r.short_code ≠ code)
        → delete_url code s = (Response.redirect (strOf "/"), s))
    ∧ (∀ q, q ∈ (delete_url code s).2.rows ↔ q ∈ s.rows ∧ q.short_code ≠ code)
    ∧ (delete_url code (delete_url code s).2).2 = (delete_url code s).2 := by
  refine ⟨rfl, ?_, ?_, ?_⟩
  · intro h
    show (Response.redirect (strOf "/"), (⟨delete_code code s.rows, s.nextId⟩ : Store))
        = (Response.redirect (strOf "/"), s)
    rw [delete_code_of_absent h]
  · intro q
    exact mem_delete_code
  · show (⟨delete_code code (delete_code code s.rows), s.nextId⟩ : Store)
        = ⟨delete_code code s.rows, s.nextId⟩
    rw [delete_code_idem]

theorem C8_delete_idempotent_redirects_witness :
    delete_url (strOf "absent") (⟨[⟨1, strOf "http://e.com", strOf "x", 5, none⟩], 2⟩ : Store)
      = (Response.redirect (strOf "/"),
         ⟨[⟨1, strOf "http://e.com", strOf "x", 5, none⟩], 2⟩) :=
  (C8_delete_idempotent_redirects (strOf "absent")
      ⟨[⟨1, strOf "http://e.com", strOf "x", 5, none⟩], 2⟩).2.1 (by decide)

/-- C3: resolving a stored code in preview mode (`GET /<code>+`) returns the
record's `long_url`, `clicks` and `short_code` and performs no mutation: the
resulting store is exactly the swept store, every remaining record is a record
of the original store with all its fields (in particular `clicks`) unchanged,
the previewed record's clicks are unchanged, and invoking the preview any
further number of times returns the same response and the same store. -/
theorem C3_preview_mutates_nothing (code now : Str) (s : Store) (r : Rec)
    (h : get_by_code code (sweep now s).rows = some r) :
    redirect_url (code ++ strOf "+") now s
        = (Response.preview r.long_url r.clicks code, sweep now s)
    ∧ r.short_code = code
    ∧ (∀ q ∈ (redirect_url (code ++ strOf "+") now s).2.rows, q ∈ s.rows)
    ∧ get_by_code code (redirect_url (code ++ strOf "+") now s).2.rows = some r
    ∧ redirect_url (code ++ strOf "+") now (redirect_url (code ++ strOf "+") now s).2
        = redirect_url (code ++ strOf "+") now s := by
  have hend : strEndsWith (code ++ strOf "+") (strOf "+") = true := by
    unfold strEndsWith
    exact List.isSuffixOf_iff_suffix.mpr ⟨code, rfl⟩
  have hdrop : (code ++ strOf "+").dropLast = code := List.dropLast_concat
  have heq : redirect_url (code ++ strOf "+") now s
      = (Response.preview r.long_url r.clicks code, sweep now s) := by
    unfold redirect_url
    rw [hend, hdrop]
    simp [h]
  have hidem : sweep now (sweep now s) = sweep now s := by
    unfold sweep
    simp [cleanup_expired_idem]
  refine ⟨heq, (get_by_code_eq_some h).2, ?_, ?_, ?_⟩
  · intro q hq
    rw [heq] at hq
    exact (mem_cleanup_expired.mp hq).1
  · rw [heq]
    exact hidem ▸ h
  · rw [heq]
    show redirect_url (code ++ strOf "+") now (sweep now s) = _
    unfold redirect_url
    rw [hend, hdrop, hidem]
    simp [h]

theorem C3_preview_mutates_nothing_witness :
    redirect_url (strOf "x" ++ strOf "+") (strOf "2021-01-01")
        (⟨[⟨1, strOf "http://e.com", strOf "x", 7, none⟩], 2⟩ : Store)
      = (Response.preview (strOf "http://e.com") 7 (strOf "x"),
         ⟨[⟨1, strOf "http://e.com", strOf "x", 7, none⟩], 2⟩) :=
  (C3_preview_mutates_nothing (strOf "x") (strOf "2021-01-01")
      ⟨[⟨1, strOf "http://e.com", strOf "x", 7, none⟩], 2⟩
      ⟨1, strOf "http://e.com", strOf "x", 7, none⟩ (by decide)).1

/-- C2: resolving a stored code without the preview marker (`GET /<code>`)
responds with a redirect to the record's `long_url` and increments exactly
that record's `clicks` by exactly 1; every other record is untouched. No other
operation ever increments a click count: the sweep and the delete only remove
records (every survivor is unchanged), a creation only adds a record whose
`clicks` is 0 (leaving existing records as the swept store has them), and the
preview leaves the store at exactly the swept store. -/
theorem C2_redirect_increments_clicks_once (path now : Str) (s : Store) (r : Rec)
    (hp : strEndsWith path (strOf "+") = false)
    (h : get_by_code path (sweep now s).rows = some r) :
    (redirect_url path now s).1 = Response.redirect r.long_url
    ∧ get_by_code path (redirect_url path now s).2.rows
        = some { r with clicks := r.clicks + 1 }
    ∧ (∀ q ∈ (sweep now s).rows, q.short_code ≠ path
        → q ∈ (redirect_url path now s).2.rows)
    ∧ (∀ lu custom exp choose q,
        q ∈ (index_post now lu custom exp choose s).2.rows → q ∈ s.rows ∨ q.clicks = 0)
    ∧ (∀ q ∈ cleanup_expired now s.rows, q ∈ s.rows)
    ∧ (∀ c q, q ∈ delete_code c s.rows → q ∈ s.rows)
    ∧ (∀ c r2, get_by_code c (sweep now s).rows = some r2
        → (redirect_url (c ++ strOf "+") now s).2 = sweep now s) := by
  have heq : redirect_url path now s
      = (Response.redirect r.long_url,
         ⟨increment_clicks path (sweep now s).rows, (sweep now s).nextId⟩) := by
    unfold redirect_url
    rw [hp]
    simp [h]
  refine ⟨by rw [heq], ?_, ?_, ?_, ?_, ?_, ?_⟩
  · rw [heq, get_by_code_increment, h]
    rfl
  · intro q hq hne
    rw [heq]
    exact mem_increment_of_ne hq hne
  · intro lu custom exp choose q hq
    rcases index_post_store_cases now lu custom exp choose s with hc | ⟨l, _, hc⟩
    · rw [hc] at hq
      exact Or.inl (mem_cleanup_expired.mp hq).1
    · rw [hc] at hq
      simp only [List.mem_append] at hq
      rcases hq with hq | hq
      · exact Or.inl (mem_cleanup_expired.mp hq).1
      · rcases List.mem_singleton.mp hq with rfl
        exact Or.inr rfl
  · intro q hq
    exact (mem_cleanup_expired.mp hq).1
  · intro c q hq
    exact (mem_delete_code.mp hq).1
  · intro c r2 h2
    have hend : strEndsWith (c ++ strOf "+") (strOf "+") = true := by
      unfold strEndsWith
      exact List.isSuffixOf_iff_suffix.mpr ⟨c, rfl⟩
    have hdrop : (c ++ strOf "+").dropLast = c := List.dropLast_concat
    unfold redirect_url
    rw [hend, hdrop]
    simp [h2]

theorem C2_redirect_increments_clicks_once_witness :
    (redirect_url (strOf "x") (strOf "2021-01-01")
        (⟨[⟨1, strOf "http://e.com", strOf "x", 7, none⟩], 2⟩ : Store)).1
      = Response.redirect (strOf "http://e.com") :=
  (C2_redirect_increments_clicks_once (strOf "x") (strOf "2021-01-01")
      ⟨[⟨1, strOf "http://e.com", strOf "x", 7, none⟩], 2⟩
      ⟨1, strOf "http://e.com", strOf "x", 7, none⟩ (by decide) (by decide)).1

/-- C1: when the effective short code of a creation request already exists
among the current (post-sweep, non-deleted) records, the INSERT fails with the
UNIQUE-constraint violation (`DuplicateCodeError`), the handler surfaces the
user-visible error "Custom code already exists." and re-renders the page, and
the store is exactly the swept store: no record is created and no existing
record's fields are modified. -/
theorem C1_duplicate_create_rejected (now lu : Str)
    (custom_code expiration_date : Option Str) (choose : Nat → Nat) (s : Store)
    (h : ∃ row ∈ (sweep now s).rows, row.short_code = effCode custom_code choose) :
    create lu (effCode custom_code choose) (truthyOpt expiration_date) (sweep now s)
        = Except.error CreateError.DuplicateCodeError
    ∧ index_post now (some lu) custom_code expiration_date choose s
        = (Response.page (some (strOf "Custom code already exists."))
            (list_recent (sweep now s).rows), sweep now s) := by
  obtain ⟨row, hrow, hcode⟩ := h
  have hany : (sweep now s).rows.any
      (fun r => r.short_code == effCode custom_code choose) = true := by
    rw [List.any_eq_true]
    exact ⟨row, hrow, beq_iff_eq.mpr hcode⟩
  constructor
  · unfold create
    rw [if_pos hany]
  · simp [index_post, create, hany]

theorem C1_duplicate_create_rejected_witness :
    index_post (strOf "2021-01-01") (some (strOf "http://g.com")) (some (strOf "x"))
        none (fun _ => 0)
        (⟨[⟨1, strOf "http://e.com", strOf "x", 7, none⟩], 2⟩ : Store)
      = (Response.page (some (strOf "Custom code already exists."))
           (list_recent [⟨1, strOf "http://e.com", strOf "x", 7, none⟩]),
         ⟨[⟨1, strOf "http://e.com", strOf "x", 7, none⟩], 2⟩) :=
  (C1_duplicate_create_rejected (strOf "2021-01-01") (strOf "http://g.com")
      (some (strOf "x")) none (fun _ => 0)
      ⟨[⟨1, strOf "http://e.com", strOf "x", 7, none⟩], 2⟩ (by decide)).2

/-- C5: a creation request without a custom code stores a generated short code
of the generator's configured length (the source always uses the default 6)
whose characters are all drawn from the 62-character alphanumeric alphabet,
and — when the generated code does not collide with an existing one, so the
insert succeeds — a subsequent lookup by that code returns a record holding
the same `long_url` (create-then-lookup round-trip). -/
theorem C5_generated_code_roundtrip (lu now : Str) (expiration_date : Option Str)
    (choose : Nat → Nat) (s : Store)
    (hfree : ((sweep now s).rows.any
        (fun r => r.short_code == generate_short_code 6 choose)) = false) :
    (generate_short_code 6 choose).length = 6
    ∧ (∀ ch ∈ generate_short_code 6 choose, ch ∈ alphabet)
    ∧ alphabet.length = 62
    ∧ ∃ s2 : Store,
        index_post now (some lu) none expiration_date choose s
          = (Response.redirect (strOf "/?created=" ++ generate_short_code 6 choose), s2)
        ∧ ∃ r : Rec, get_by_code (generate_short_code 6 choose) s2.rows = some r
            ∧ r.long_url = lu := by
  refine ⟨by simp [generate_short_code], ?_, by decide, ?_⟩
  · intro ch hch
    unfold generate_short_code at hch
    rcases List.mem_map.mp hch with ⟨i, _, hi⟩
    have hlt : choose i % alphabet.length < alphabet.length :=
      Nat.mod_lt _ (by decide)
    rw [← hi, List.getD_eq_getElem _ _ hlt]
    exact List.getElem_mem hlt
  · have hok : create lu (generate_short_code 6 choose) (truthyOpt expiration_date)
        (sweep now s)
        = Except.ok ⟨(sweep now s).rows
            ++ [⟨(sweep now s).nextId, lu, generate_short_code 6 choose, 0,
                 truthyOpt expiration_date⟩],
           (sweep now s).nextId + 1⟩ := by
      unfold create
      rw [if_neg (by simp [hfree])]
    refine ⟨⟨(sweep now s).rows
        ++ [⟨(sweep now s).nextId, lu, generate_short_code 6 choose, 0,
             truthyOpt expiration_date⟩],
        (sweep now s).nextId + 1⟩, ?_, ?_⟩
    · simp only [index_post, effCode]
      rw [hok]
    · refine ⟨⟨(sweep now s).nextId, lu, generate_short_code 6 choose, 0,
          truthyOpt expiration_date⟩, ?_, rfl⟩
      rw [get_by_code_append_of_absent _ hfree]
      simp [get_by_code]

theorem C5_generated_code_roundtrip_witness :
    ∃ s2 : Store,
      index_post (strOf "2021-01-01") (some (strOf "http://e.com")) none none
          (fun _ => 0) (⟨[], 1⟩ : Store)
        = (Response.redirect (strOf "/?created=" ++ generate_short_code 6 (fun _ => 0)), s2)
      ∧ ∃ r : Rec, get_by_code (generate_short_code 6 (fun _ => 0)) s2.rows = some r
          ∧ r.long_url = strOf "http://e.com" :=
  (C5_generated_code_roundtrip (strOf "http://e.com") (strOf "2021-01-01") none
      (fun _ => 0) ⟨[], 1⟩ (by decide)).2.2.2

/-- C6: the effective short code of a creation request is the user-supplied
`custom_code` whenever it is provided and non-empty, and a freshly generated
code otherwise (an empty `custom_code` string is falsy in the source and so
triggers generation exactly like an absent one); on a non-colliding creation
the stored record carries exactly that effective code. -/
theorem C6_effective_short_code (custom_code : Option Str) (choose : Nat → Nat)
    (now lu : Str) (expiration_date : Option Str) (s : Store)
    (hfree : ((sweep now s).rows.any
        (fun r => r.short_code == effCode custom_code choose)) = false) :
    (∀ c, custom_code = some c → c ≠ [] → effCode custom_code choose = c)
    ∧ (custom_code = some [] → effCode custom_code choose = generate_short_code 6 choose)
    ∧ (custom_code = none → effCode custom_code choose = generate_short_code 6 choose)
    ∧ (index_post now (some lu) custom_code expiration_date choose s).2.rows
        = (sweep now s).rows
          ++ [⟨s.nextId, lu, effCode custom_code choose, 0, truthyOpt expiration_date⟩] := by
  refine ⟨?_, ?_, ?_, ?_⟩
  · rintro c rfl hc
    simp [effCode, hc]
  · rintro rfl
    simp [effCode]
  · rintro rfl
    simp [effCode]
  · have hok : create lu (effCode custom_code choose) (truthyOpt expiration_date)
        (sweep now s)
        = Except.ok ⟨(sweep now s).rows
            ++ [⟨(sweep now s).nextId, lu, effCode custom_code choose, 0,
                 truthyOpt expiration_date⟩],
           (sweep now s).nextId + 1⟩ := by
      unfold create
      rw [if_neg (by simp [hfree])]
    simp only [index_post]
    rw [hok]
    rfl

theorem C6_effective_short_code_witness :
    (index_post (strOf "2021-01-01") (some (strOf "http://e.com"))
        (some (strOf "mylink")) none (fun _ => 0) (⟨[], 1⟩ : Store)).2.rows
      = [⟨1, strOf "http://e.com", strOf "mylink", 0, none⟩] :=
  (C6_effective_short_code (some (strOf "mylink")) (fun _ => 0) (strOf "2021-01-01")
      (strOf "http://e.com") none ⟨[], 1⟩ (by decide)).2.2.2

/-- C7: the landing-page history query (`list_recent`) returns at most 10
records (the configured LIMIT), ordered most-recently-created first
(descending creation id), and only records actually present in the store —
so after a delete no record with the deleted code appears, and on the swept
store (as the GET `/` route queries it) no expired record appears. -/
theorem C7_list_recent_bounded_ordered (rows : List Rec) (now c : Str) (s : Store) :
    (list_recent rows).length ≤ 10
    ∧ (list_recent rows).Pairwise (fun a b => b.id ≤ a.id)
    ∧ (∀ r ∈ list_recent rows, r ∈ rows)
    ∧ (∀ r ∈ list_recent (delete_code c rows), r.short_code ≠ c)
    ∧ (∀ r ∈ list_recent (cleanup_expired now rows),
        ¬∃ e, r.expiration = some e ∧ strLe e now = true)
    ∧ index_get now s
        = (Response.page none (list_recent (cleanup_expired now s.rows)), sweep now s) := by
  have hmem : ∀ l : List Rec, ∀ r ∈ list_recent l, r ∈ l := by
    intro l r hr
    unfold list_recent at hr
    exact (List.perm_insertionSort recentOrder l).mem_iff.mp (List.mem_of_mem_take hr)
  refine ⟨?_, ?_, hmem rows, ?_, ?_, rfl⟩
  · unfold list_recent
    simp [List.length_take]
  · unfold list_recent
    exact List.Pairwise.sublist (List.take_sublist 10 _)
      (List.sorted_insertionSort recentOrder rows)
  · intro r hr
    exact (mem_delete_code.mp (hmem _ r hr)).2
  · intro r hr
    have hex : expired now r = false :=
      (mem_cleanup_expired.mp (hmem _ r hr)).2
    intro hcon
    rw [← expired_iff] at hcon
    rw [hex] at hcon
    cases hcon

theorem C7_list_recent_bounded_ordered_witness :
    ∀ r ∈ list_recent
        [⟨1, strOf "http://e.com", strOf "x", 0, none⟩,
         ⟨2, strOf "http://f.com", strOf "y", 3, none⟩],
      r ∈ [⟨1, strOf "http://e.com", strOf "x", 0, none⟩,
           ⟨2, strOf "http://f.com", strOf "y", 3, none⟩] :=
  (C7_list_recent_bounded_ordered
      [⟨1, strOf "http://e.com", strOf "x", 0, none⟩,
       ⟨2, strOf "http://f.com", strOf "y", 3, none⟩]
      (strOf "2021") (strOf "x") ⟨[], 1⟩).2.2.1

/-- C9 (amended): a creation request with the `long_url` form field absent is
rejected by the framework's missing-key error (HTTP 400) before the insert
runs: no record is created and every record still present was present before
(only the opportunistic sweep, which runs at the top of the route, may have
removed expired records). A present-but-empty `long_url` is NOT rejected
server-side — non-emptiness is only client-side form hinting — so it reaches
the store (see the counterexample theorem). -/
theorem C9_missing_long_url_rejected (now : Str)
    (custom_code expiration_date : Option Str) (choose : Nat → Nat) (s : Store) :
    index_post now none custom_code expiration_date choose s
        = (Response.badRequest, sweep now s)
    ∧ (∀ q ∈ (index_post now none custom_code expiration_date choose s).2.rows,
        q ∈ s.rows) := by
  refine ⟨rfl, ?_⟩
  intro q hq
  exact (mem_cleanup_expired.mp hq).1

theorem C9_missing_long_url_rejected_witness :
    (⟨1, strOf "http://e.com", strOf "x", 0, none⟩ : Rec) ∈
      (⟨[⟨1, strOf "http://e.com", strOf "x", 0, none⟩], 2⟩ : Store).rows :=
  (C9_missing_long_url_rejected (strOf "2021") none none (fun _ => 0)
      ⟨[⟨1, strOf "http://e.com", strOf "x", 0, none⟩], 2⟩).2
    ⟨1, strOf "http://e.com", strOf "x", 0, none⟩ (by decide)

/-- C9 (counterexample to the claim as stated): a creation request whose
`long_url` field is present but empty is not rejected — the route inserts it,
so a record holding an empty `long_url` is created, contradicting "no record
ever holds an empty long_url". Concretely, posting `long_url = ""` with custom
code "x" to an empty store succeeds and stores the empty URL. -/
theorem C9_empty_long_url_stored :
    index_post (strOf "2021-01-01") (some []) (some (strOf "x")) none (fun _ => 0)
        (⟨[], 1⟩ : Store)
      = (Response.redirect (strOf "/?created=x"),
         ⟨[⟨1, [], strOf "x", 0, none⟩], 2⟩)
    ∧ (⟨1, [], strOf "x", 0, none⟩ : Rec).long_url = [] := by
  constructor
  · decide
  · rfl

/-- C10: any requested path whose last character is `+` is always handled as a
preview request: the final `+` is stripped (the path equals the truncated code
followed by `+`), the lookup runs on the truncated code, the response is the
preview page when that code is stored and the 404 otherwise — never a
redirect — and the store is left at the swept store (no click increment). In
particular a record whose own `short_code` ends in `+` is never returned as a
direct redirect: requesting that exact path previews the code without the
trailing `+`. -/
theorem C10_trailing_plus_always_preview (path now : Str) (s : Store)
    (h : strEndsWith path (strOf "+") = true) :
    path = path.dropLast ++ strOf "+"
    ∧ redirect_url path now s
        = (match get_by_code path.dropLast (sweep now s).rows with
           | none => (Response.notFound, sweep now s)
           | some r => (Response.preview r.long_url r.clicks path.dropLast, sweep now s))
    ∧ (∀ loc, (redirect_url path now s).1 ≠ Response.redirect loc)
    ∧ (redirect_url path now s).2 = sweep now s := by
  have hsuf : strOf "+" <:+ path := by
    unfold strEndsWith at h
    exact List.isSuffixOf_iff_suffix.mp h
  obtain ⟨t, ht⟩ := hsuf
  have hdecomp : path = path.dropLast ++ strOf "+" := by
    rw [← ht]
    rw [show (t ++ strOf "+").dropLast = t from List.dropLast_concat]
  have heq : redirect_url path now s
      = (match get_by_code path.dropLast (sweep now s).rows with
         | none => (Response.notFound, sweep now s)
         | some r => (Response.preview r.long_url r.clicks path.dropLast, sweep now s)) := by
    unfold redirect_url
    rw [h]
    cases hg : get_by_code path.dropLast (sweep now s).rows with
    | none => simp [hg]
    | some r => simp [hg]
  refine ⟨hdecomp, heq, ?_, ?_⟩
  · intro loc
    rw [heq]
    cases hg : get_by_code path.dropLast (sweep now s).rows with
    | none => simp [hg]
    | some r => simp [hg]
  · rw [heq]
    cases hg : get_by_code path.dropLast (sweep now s).rows with
    | none => simp [hg]
    | some r => simp [hg]

theorem C10_trailing_plus_always_preview_witness :
    redirect_url (strOf "x+") (strOf "2021-01-01")
        (⟨[⟨1, strOf "http://e.com", strOf "x+", 4, none⟩], 2⟩ : Store)
      = (match get_by_code (strOf "x+").dropLast
            (sweep (strOf "2021-01-01")
              (⟨[⟨1, strOf "http://e.com", strOf "x+", 4, none⟩], 2⟩ : Store)).rows with
         | none => (Response.notFound,
             sweep (strOf "2021-01-01")
               ⟨[⟨1, strOf "http://e.com", strOf "x+", 4, none⟩], 2⟩)
         | some r => (Response.preview r.long_url r.clicks (strOf "x+").dropLast,
             sweep (strOf "2021-01-01")
               ⟨[⟨1, strOf "http://e.com", strOf "x+", 4, none⟩], 2⟩)) :=
  (C10_trailing_plus_always_preview (strOf "x+") (strOf "2021-01-01")
      ⟨[⟨1, strOf "http://e.com", strOf "x+", 4, none⟩], 2⟩ (by decide)).2.1

end Xq
